import Mathlib

/-!
Verification of the Bitbucket Server VCS client adapter
(`server/events/vcs/bitbucketserver/client.go`).

The Go client is embedded shallowly: every operation becomes a pure Lean
function from a *server oracle* (a function from the HTTP request the
operation would issue to the HTTP response the server would return) to the
pair of (list of requests actually issued, result).  Machine integers in the
source (`int`) are modelled as `Int`; Go's multiple-return `(T, error)`
convention is modelled with `Except`; a `nil`-pointer dereference (a runtime
panic in Go) is modelled by the distinguished error `VcsError.nilDeref`.

Project-key extraction (`GetProjectKey`) parses the clone URL with Go's
`regexp` engine; the spec places it out of scope ("a pure string parse, not
an engineering-hard path"), so every operation here takes the already
computed `Except`-valued result of that derivation as a parameter.
-/

namespace BitbucketServer

/-- A JSON value, standing for the raw response body bytes that
`encoding/json` would decode.  Object fields are an association list. -/
inductive Json where
  | null
  | bool (b : Bool)
  | num (n : Int)
  | str (s : String)
  | arr (elems : List Json)
  | obj (fields : List (String × Json))
deriving Repr

/-- HTTP methods used by the client. -/
inductive Method where
  | GET
  | POST
  | DELETE
deriving DecidableEq, Repr

/-- Rendering of a method, as it appears in error messages. -/
def Method.render : Method → String
  | .GET => "GET"
  | .POST => "POST"
  | .DELETE => "DELETE"

/-- One outbound HTTP request: method, full path (URL), optional JSON body. -/
structure Request where
  method : Method
  path : String
  body : Option Json

/-- One HTTP response: numeric status code and body. -/
structure HttpResponse where
  statusCode : Nat
  body : Json

/-- The error `makeRequest` produces for a non-success status code.  The Go
code formats these four data into the error string; we keep them structured
and render the message separately. -/
inductive RequestError where
  | unexpectedStatus (method : Method) (path : String) (status : Nat) (body : Json)

mutual

/-- A crude printer for `Json`, standing for `string(respBody)` in the Go
error message (the exact rendering of the raw bytes is irrelevant to the
claims; only that the body text appears in the message). -/
def Json.render : Json → String
  | .null => "null"
  | .bool true => "true"
  | .bool false => "false"
  | .num n => toString n
  | .str s => "\"" ++ s ++ "\""
  | .arr elems => "[" ++ Json.renderElems elems ++ "]"
  | .obj fields => "\x7b" ++ Json.renderFields fields ++ "\x7d"

def Json.renderElems : List Json → String
  | [] => ""
  | [x] => x.render
  | x :: y :: xs => x.render ++ "," ++ Json.renderElems (y :: xs)

def Json.renderFields : List (String × Json) → String
  | [] => ""
  | [(k, v)] => "\"" ++ k ++ "\":" ++ v.render
  | (k, v) :: y :: xs => "\"" ++ k ++ "\":" ++ v.render ++ "," ++ Json.renderFields (y :: xs)

end

/-- The Go error string
`fmt.Errorf("making request %q unexpected status code: %d, body: %s", requestStr, resp.StatusCode, string(respBody))`
where `requestStr = fmt.Sprintf("%s %s", method, path)`. -/
def RequestError.message : RequestError → String
  | .unexpectedStatus m p s b =>
      "making request \"" ++ m.render ++ " " ++ p ++ "\" unexpected status code: "
        ++ toString s ++ ", body: " ++ b.render

/-- `makeRequest` (client.go:329-350): sends the request and classifies the
numeric status code.  200, 201 and 204 are success, returning the body;
anything else is an error carrying method, path, status code and body. -/
def makeRequest (req : Request) (resp : HttpResponse) : Except RequestError Json :=
  if resp.statusCode ≠ 200 ∧ resp.statusCode ≠ 201 ∧ resp.statusCode ≠ 204 then
    .error (.unexpectedStatus req.method req.path resp.statusCode resp.body)
  else
    .ok resp.body

/-- The error taxonomy of the client's operations (spec §7).  `http` wraps a
`makeRequest` failure; `decode` is `json.Unmarshal` failure ("Could not parse
response %q"); `schema` is a `validator.Struct` failure ("API response %q was
missing fields"); `nilDeref` models a Go nil-pointer-dereference panic;
`derivation` is a project-key extraction failure; `unsupported` is the error
of an unimplemented operation. -/
inductive VcsError where
  | http (method : Method) (path : String) (status : Nat) (body : Json)
  | decode (raw : Json)
  | schema (raw : Json)
  | nilDeref
  | derivation (msg : String)
  | unsupported (msg : String)

/-- The server oracle: what response each request would get. -/
def ServerOracle : Type := Request → HttpResponse

/-! ### Response DTOs and their decoders

The decoders model Go's `encoding/json.Unmarshal` for the pointer-field
struct shapes this client decodes into: a missing field or JSON `null`
leaves a pointer field `nil` (here `none`), a type mismatch makes the whole
unmarshal fail, `null` at a struct position leaves the zero value, and
unknown fields are ignored. -/

/-- `path`/`srcPath` inner object: `ToString *string`. -/
structure ChangePath where
  toString : Option String
deriving DecidableEq, Repr

/-- One element of `Changes.Values`: a required-shape `path` and an optional
`srcPath` (present for renames). -/
structure ChangeValue where
  path : ChangePath
  srcPath : Option ChangePath
deriving DecidableEq, Repr

/-- The paged `/changes` response: `Values`, `IsLastPage *bool`,
`NextPageStart *int`. -/
structure Changes where
  values : List ChangeValue
  isLastPage : Option Bool
  nextPageStart : Option Int
deriving DecidableEq, Repr

/-- One reviewer of a pull request: `Approved *bool`. -/
structure Reviewer where
  approved : Option Bool
deriving DecidableEq, Repr

/-- The pull-request detail response: `Version *int` and the reviewer list. -/
structure PullRequest where
  version : Option Int
  reviewers : List Reviewer
deriving DecidableEq, Repr

/-- The `/merge` mergeability response: `CanMerge *bool`, `Conflicted *bool`. -/
structure MergeStatus where
  canMerge : Option Bool
  conflicted : Option Bool
deriving DecidableEq, Repr

/-- Decode an optional (`*string`) field from its (possibly absent) JSON. -/
def decodeOptString : Option Json → Except Unit (Option String)
  | none => .ok none
  | some .null => .ok none
  | some (.str s) => .ok (some s)
  | some _ => .error ()

/-- Decode an optional (`*bool`) field. -/
def decodeOptBool : Option Json → Except Unit (Option Bool)
  | none => .ok none
  | some .null => .ok none
  | some (.bool b) => .ok (some b)
  | some _ => .error ()

/-- Decode an optional (`*int`) field. -/
def decodeOptInt : Option Json → Except Unit (Option Int)
  | none => .ok none
  | some .null => .ok none
  | some (.num n) => .ok (some n)
  | some _ => .error ()

/-- Decode the `path`/`srcPath` inner object. -/
def decodeChangePath : Json → Except Unit ChangePath
  | .null => .ok ⟨none⟩
  | .obj fs => (decodeOptString (fs.lookup "toString")).map ChangePath.mk
  | _ => .error ()

/-- Decode one element of `values`. -/
def decodeChangeValue : Json → Except Unit ChangeValue
  | .null => .ok ⟨⟨none⟩, none⟩
  | .obj fs => do
      let path ←
        match fs.lookup "path" with
        | none => .ok (⟨none⟩ : ChangePath)
        | some v => decodeChangePath v
      let srcPath ←
        match fs.lookup "srcPath" with
        | none => .ok none
        | some .null => .ok none
        | some v => (decodeChangePath v).map some
      .ok ⟨path, srcPath⟩
  | _ => .error ()

/-- Decode a `values` array elementwise. -/
def decodeChangeValues : List Json → Except Unit (List ChangeValue)
  | [] => .ok []
  | x :: xs => do
      let v ← decodeChangeValue x
      let vs ← decodeChangeValues xs
      .ok (v :: vs)

/-- Decode the `/changes` page response (`json.Unmarshal(resp, &changes)`). -/
def decodeChanges : Json → Except Unit Changes
  | .null => .ok ⟨[], none, none⟩
  | .obj fs => do
      let values ←
        match fs.lookup "values" with
        | none => .ok []
        | some .null => .ok []
        | some (.arr elems) => decodeChangeValues elems
        | some _ => .error ()
      let isLastPage ← decodeOptBool (fs.lookup "isLastPage")
      let nextPageStart ← decodeOptInt (fs.lookup "nextPageStart")
      .ok ⟨values, isLastPage, nextPageStart⟩
  | _ => .error ()

/-- Decode one reviewer entry. -/
def decodeReviewer : Json → Except Unit Reviewer
  | .null => .ok ⟨none⟩
  | .obj fs => (decodeOptBool (fs.lookup "approved")).map Reviewer.mk
  | _ => .error ()

/-- Decode a `reviewers` array elementwise. -/
def decodeReviewers : List Json → Except Unit (List Reviewer)
  | [] => .ok []
  | x :: xs => do
      let r ← decodeReviewer x
      let rs ← decodeReviewers xs
      .ok (r :: rs)

/-- Decode the pull-request detail response
(`json.Unmarshal(resp, &pullResp)`). -/
def decodePullRequest : Json → Except Unit PullRequest
  | .null => .ok ⟨none, []⟩
  | .obj fs => do
      let version ← decodeOptInt (fs.lookup "version")
      let reviewers ←
        match fs.lookup "reviewers" with
        | none => .ok []
        | some .null => .ok []
        | some (.arr elems) => decodeReviewers elems
        | some _ => .error ()
      .ok ⟨version, reviewers⟩
  | _ => .error ()

/-- Decode the mergeability response (`json.Unmarshal(resp, &mergeStatus)`). -/
def decodeMergeStatus : Json → Except Unit MergeStatus
  | .null => .ok ⟨none, none⟩
  | .obj fs => do
      let canMerge ← decodeOptBool (fs.lookup "canMerge")
      let conflicted ← decodeOptBool (fs.lookup "conflicted")
      .ok ⟨canMerge, conflicted⟩
  | _ => .error ()

/-- Modelled from the spec: the `validate:"required"` tags live in the
package's `models.go`, which is not part of the provided source. Per spec
§3 a `PagedChangeSet` carries a required "is last page" flag and entries
whose current path is required; a prior path, when present, is itself a
path value. `validator.New().Struct(changes)` (client.go:89). -/
def validateChanges (c : Changes) : Bool :=
  c.isLastPage.isSome && c.values.all fun v =>
    v.path.toString.isSome &&
      (match v.srcPath with
       | some sp => sp.toString.isSome
       | none => true)

/-- Modelled from the spec: per spec §3 a `PullRequestSnapshot` carries a
required version token and reviewer entries each carrying an "approved"
boolean. `validator.New().Struct(pullResp)` (client.go:187, 281). -/
def validatePullRequest (p : PullRequest) : Bool :=
  p.version.isSome && p.reviewers.all (·.approved.isSome)

/-- Modelled from the spec: per spec §3 a `MergeabilityReport` has
`"can merge"` and `"conflicted"` as required booleans.
`validator.New().Struct(mergeStatus)` (client.go:220). -/
def validateMergeStatus (m : MergeStatus) : Bool :=
  m.canMerge.isSome && m.conflicted.isSome

/-! ### URL construction (the `fmt.Sprintf` templates of client.go) -/

def pullRequestURL (baseURL projectKey repoName : String) (pullNum : Int) : String :=
  baseURL ++ "/rest/api/1.0/projects/" ++ projectKey ++ "/repos/" ++ repoName
    ++ "/pull-requests/" ++ toString pullNum

def changesURL (baseURL projectKey repoName : String) (pullNum : Int) : String :=
  pullRequestURL baseURL projectKey repoName pullNum ++ "/changes"

def commentsURL (baseURL projectKey repoName : String) (pullNum : Int) : String :=
  pullRequestURL baseURL projectKey repoName pullNum ++ "/comments"

def mergeabilityURL (baseURL projectKey repoName : String) (pullNum : Int) : String :=
  pullRequestURL baseURL projectKey repoName pullNum ++ "/merge"

def mergeURL (baseURL projectKey repoName : String) (pullNum : Int) (version : Int) : String :=
  pullRequestURL baseURL projectKey repoName pullNum ++ "/merge?version=" ++ toString version

def buildStatusURL (baseURL headCommit : String) : String :=
  baseURL ++ "/rest/build-status/1.0/commits/" ++ headCommit

def branchesURL (baseURL projectKey repoName : String) : String :=
  baseURL ++ "/rest/branch-utils/1.0/projects/" ++ projectKey ++ "/repos/" ++ repoName
    ++ "/branches"

/-- The `GET %s?start=%d` page request of the pagination loop (client.go:81). -/
def pageRequest (url : String) (start : Int) : Request :=
  ⟨.GET, url ++ "?start=" ++ toString start, none⟩

/-! ### GetModifiedFiles (client.go:68-117) -/

/-- The paths one change entry contributes (client.go:92-100): the current
path, then — if the file was renamed — the source path.  Only evaluated
after validation has guaranteed the dereferenced pointers are non-nil. -/
def entryPaths (v : ChangeValue) : List String :=
  (match v.path.toString with
   | some p => [p]
   | none => []) ++
  (match v.srcPath with
   | some sp =>
       (match sp.toString with
        | some q => [q]
        | none => [])
   | none => [])

/-- All paths contributed by one page. -/
def pageEntries (c : Changes) : List String :=
  c.values.flatMap entryPaths

/-- The dedup pass (client.go:107-115): `seen` is the `hash` map, the first
occurrence of each path is kept, in order. -/
def uniqueFirstAux (seen : List String) : List String → List String
  | [] => []
  | f :: fs =>
      if f ∈ seen then uniqueFirstAux seen fs
      else f :: uniqueFirstAux (f :: seen) fs

/-- `unique` as computed at the end of `GetModifiedFiles`. -/
def uniqueFirst (files : List String) : List String :=
  uniqueFirstAux [] files

/-- The pagination loop (client.go:80-105), with `fuel` the remaining
iterations of the 1000-iteration `for` loop.  Returns the number of page
fetches performed (requests issued) together with the raw accumulated file
list or the first error. -/
def getModifiedFilesLoop (server : ServerOracle) (url : String) :
    Nat → Int → List String → Nat × Except VcsError (List String)
  | 0, _, files => (0, .ok files)
  | _fuel + 1, start, files =>
      let req := pageRequest url start
      match makeRequest req (server req) with
      | .error (.unexpectedStatus m p s b) => (1, .error (.http m p s b))
      | .ok body =>
        match decodeChanges body with
        | .error _ => (1, .error (.decode body))
        | .ok changes =>
          if validateChanges changes then
            let files' := files ++ pageEntries changes
            match changes.isLastPage with
            | some true => (1, .ok files')
            | some false =>
              match changes.nextPageStart with
              | some n =>
                  let rest := getModifiedFilesLoop server url _fuel n files'
                  (rest.1 + 1, rest.2)
              | none => (1, .error .nilDeref)
            | none => (1, .error .nilDeref)
          else (1, .error (.schema body))

/-- `GetModifiedFiles` (client.go:68-117): paginate from offset 0 with the
1000-iteration safety bound, then deduplicate.  Returns (number of page
fetches, result). -/
def GetModifiedFiles (server : ServerOracle) (projectKey : Except VcsError String)
    (baseURL repoName : String) (pullNum : Int) :
    Nat × Except VcsError (List String) :=
  match projectKey with
  | .error e => (0, .error e)
  | .ok pk =>
      let url := changesURL baseURL pk repoName pullNum
      let r := getModifiedFilesLoop server url 1000 0 []
      (r.1, r.2.map uniqueFirst)

/-! ### MergePull (client.go:265-302) -/

/-- `MergePull`: read the pull request to learn its current version, then
POST the merge carrying that version as a query parameter, then optionally
delete the source branch.  Returns the requests issued, in order, and the
result. -/
def MergePull (server : ServerOracle) (projectKey : Except VcsError String)
    (baseURL repoName : String) (pullNum : Int) (headBranch : String)
    (deleteSourceBranchOnMerge : Bool) :
    List Request × Except VcsError Unit :=
  match projectKey with
  | .error e => ([], .error e)
  | .ok pk =>
      let getReq : Request := ⟨.GET, pullRequestURL baseURL pk repoName pullNum, none⟩
      match makeRequest getReq (server getReq) with
      | .error (.unexpectedStatus m p s b) => ([getReq], .error (.http m p s b))
      | .ok body =>
        match decodePullRequest body with
        | .error _ => ([getReq], .error (.decode body))
        | .ok pullResp =>
          if validatePullRequest pullResp then
            match pullResp.version with
            | none => ([getReq], .error .nilDeref)
            | some v =>
                let mergeReq : Request := ⟨.POST, mergeURL baseURL pk repoName pullNum v, none⟩
                match makeRequest mergeReq (server mergeReq) with
                | .error (.unexpectedStatus m p s b) =>
                    ([getReq, mergeReq], .error (.http m p s b))
                | .ok _ =>
                  if deleteSourceBranchOnMerge then
                    let delBody : Json :=
                      .obj [("name", .str ("refs/heads/" ++ headBranch)), ("dryRun", .bool false)]
                    let delReq : Request := ⟨.DELETE, branchesURL baseURL pk repoName, some delBody⟩
                    match makeRequest delReq (server delReq) with
                    | .error (.unexpectedStatus m p s b) =>
                        ([getReq, mergeReq, delReq], .error (.http m p s b))
                    | .ok _ => ([getReq, mergeReq, delReq], .ok ())
                  else ([getReq, mergeReq], .ok ())
          else ([getReq], .error (.schema body))

/-! ### PullIsApproved (client.go:173-198) -/

/-- The zero value of `models.ApprovalStatus` has `IsApproved = false`. -/
structure ApprovalStatus where
  isApproved : Bool
deriving DecidableEq, Repr

/-- The reviewer scan (client.go:190-196): return on the first reviewer
whose `*Approved` dereferences to true. -/
def anyApproved : List Reviewer → Except VcsError Bool
  | [] => .ok false
  | r :: rs =>
      match r.approved with
      | some true => .ok true
      | some false => anyApproved rs
      | none => .error .nilDeref

/-- `PullIsApproved`: fetch the pull request, decode, validate, then scan
the reviewers. -/
def PullIsApproved (server : ServerOracle) (projectKey : Except VcsError String)
    (baseURL repoName : String) (pullNum : Int) :
    List Request × Except VcsError ApprovalStatus :=
  match projectKey with
  | .error e => ([], .error e)
  | .ok pk =>
      let req : Request := ⟨.GET, pullRequestURL baseURL pk repoName pullNum, none⟩
      match makeRequest req (server req) with
      | .error (.unexpectedStatus m p s b) => ([req], .error (.http m p s b))
      | .ok body =>
        match decodePullRequest body with
        | .error _ => ([req], .error (.decode body))
        | .ok pullResp =>
          if validatePullRequest pullResp then
            match anyApproved pullResp.reviewers with
            | .error e => ([req], .error e)
            | .ok b => ([req], .ok ⟨b⟩)
          else ([req], .error (.schema body))

/-! ### PullIsMergeable (client.go:206-227) -/

/-- `PullIsMergeable`: fetch the mergeability report, decode, validate, then
return `*CanMerge && !*Conflicted`. -/
def PullIsMergeable (server : ServerOracle) (projectKey : Except VcsError String)
    (baseURL repoName : String) (pullNum : Int) :
    List Request × Except VcsError Bool :=
  match projectKey with
  | .error e => ([], .error e)
  | .ok pk =>
      let req : Request := ⟨.GET, mergeabilityURL baseURL pk repoName pullNum, none⟩
      match makeRequest req (server req) with
      | .error (.unexpectedStatus m p s b) => ([req], .error (.http m p s b))
      | .ok body =>
        match decodeMergeStatus body with
        | .error _ => ([req], .error (.decode body))
        | .ok mergeStatus =>
          if validateMergeStatus mergeStatus then
            match mergeStatus.canMerge, mergeStatus.conflicted with
            | some cm, some cf => ([req], .ok (cm && !cf))
            | _, _ => ([req], .error .nilDeref)
          else ([req], .error (.schema body))

/-! ### UpdateStatus (client.go:230-262) -/

/-- Modelled from the spec at the interface boundary: `models.CommitStatus`
is an integer-backed enum of the orchestrator's domain model (outside this
package); `iota` names pending, success and failed as 0, 1, 2 and leaves
every other integer an unnamed value of the same type. -/
def PendingCommitStatus : Int := 0

def SuccessCommitStatus : Int := 1

def FailedCommitStatus : Int := 2

/-- The status switch of `UpdateStatus` (client.go:231-239): `bbState`
starts as `"FAILED"` and each named status overwrites it. -/
def bbState (status : Int) : String :=
  if status = PendingCommitStatus then "INPROGRESS"
  else if status = SuccessCommitStatus then "SUCCESSFUL"
  else if status = FailedCommitStatus then "FAILED"
  else "FAILED"

/-- `UpdateStatus`: map the status, defaulting an empty URL to the Atlantis
URL, and POST the build status (fields in the sorted order Go's
`json.Marshal` emits for a `map[string]string`). -/
def UpdateStatus (server : ServerOracle) (baseURL atlantisURL headCommit : String)
    (status : Int) (src description url : String) :
    List Request × Except VcsError Unit :=
  let state := bbState status
  let url' := if url = "" then atlantisURL else url
  let body : Json := .obj
    [("description", .str description), ("key", .str src),
     ("state", .str state), ("url", .str url')]
  let req : Request := ⟨.POST, buildStatusURL baseURL headCommit, some body⟩
  match makeRequest req (server req) with
  | .error (.unexpectedStatus m p s b) => ([req], .error (.http m p s b))
  | .ok _ => ([req], .ok ())

/-! ### Stub operations (client.go:149-155, 200-203, 353-374)

Each stub returns immediately; the empty request list records that no
network call is made.  The Go error slot is modelled as `Option VcsError`
(`none` = `nil`). -/

/-- `DiscardReviews` (client.go:200-203): `// TODO implement` — returns
`nil`. -/
def DiscardReviews (_server : ServerOracle) : List Request × Option VcsError :=
  ([], none)

/-- `GetFileContent` (client.go:364-366): `return false, []byte{},
fmt.Errorf("not implemented")`. -/
def GetFileContent (_server : ServerOracle) :
    List Request × (Bool × String × Option VcsError) :=
  ([], (false, "", some (.unsupported "not implemented")))

/-- `GetCloneURL` (client.go:368-370). -/
def GetCloneURL (_server : ServerOracle) : List Request × (String × Option VcsError) :=
  ([], ("", some (.unsupported "not yet implemented")))

/-- `GetPullLabels` (client.go:372-374). -/
def GetPullLabels (_server : ServerOracle) :
    List Request × (List String × Option VcsError) :=
  ([], ([], some (.unsupported "not yet implemented")))

/-! ### CreateComment (client.go:137-147) and the comment splitter -/

/-- The continuation suffix appended to every non-final chunk
(client.go:138). -/
def sepEnd : List Char :=
  ("\n```\n**Warning**: Output length greater than max comment size. Continued in next comment.").toList

/-- The continuation prefix prepended to every non-initial chunk
(client.go:139). -/
def sepStart : List Char :=
  ("Continued from previous comment.\n```diff\n").toList

/-- `maxCommentLength` (client.go:23): the Bitbucket per-comment ceiling. -/
def maxCommentLength : Nat := 32768

/-- Continuation chunks of the splitter: each starts with `sepStart`; if
what remains still does not fit, fill the chunk to capacity and close it
with `sepEnd`. -/
def splitCommentCont (maxSize : Nat) (sepEnd sepStart rest : List Char) :
    List (List Char) :=
  if h : rest = [] ∨ sepStart.length + rest.length ≤ maxSize then
    [sepStart ++ rest]
  else
    let n := max 1 (maxSize - sepStart.length - sepEnd.length)
    (sepStart ++ rest.take n ++ sepEnd) ::
      splitCommentCont maxSize sepEnd sepStart (rest.drop n)
termination_by rest.length
decreasing_by
  have hne : rest ≠ [] := fun hnil => h (Or.inl hnil)
  have hpos : 0 < rest.length := List.length_pos.mpr hne
  have hn : 1 ≤ max 1 (maxSize - sepStart.length - sepEnd.length) :=
    Nat.le_max_left _ _
  simp only [List.length_drop]
  omega

/-- Modelled from the spec: `common.SplitComment`
(`server/events/vcs/common`) is not part of the provided source.  Per spec
§4.3: a comment within the limit yields exactly one chunk with no markers;
otherwise every non-final chunk ends with `sepEnd`, every non-initial chunk
starts with `sepStart`, concatenating the chunks with the inserted markers
stripped reproduces the input, every chunk (markers included) fits
`maxSize`, and no chunk is empty.  The split-point policy — fill each chunk
to capacity — is the internal policy the spec leaves free.  The final two
parameters (`maxCommentsPerCommand`, `truncationHeader`) are passed as `0`
and `""` by this client and are ignored.  Characters stand for bytes. -/
def SplitComment (comment : List Char) (maxSize : Nat) (sepEnd sepStart : List Char)
    (_maxCommentsPerCommand : Nat) (_truncationHeader : List Char) :
    List (List Char) :=
  if comment.length ≤ maxSize then [comment]
  else
    (comment.take (maxSize - sepEnd.length) ++ sepEnd) ::
      splitCommentCont maxSize sepEnd sepStart (comment.drop (maxSize - sepEnd.length))

/-- Remove the trailing `sepEnd` marker from a non-final chunk. -/
def stripEnd (sepEnd c : List Char) : List Char :=
  c.take (c.length - sepEnd.length)

/-- Concatenate continuation chunks with their inserted markers stripped. -/
def stripChunksCont (sepEnd sepStart : List Char) : List (List Char) → List Char
  | [] => []
  | [c] => c.drop sepStart.length
  | c :: c' :: cs =>
      stripEnd sepEnd (c.drop sepStart.length) ++ stripChunksCont sepEnd sepStart (c' :: cs)

/-- Concatenate all chunks with the inserted markers stripped. -/
def stripChunks (sepEnd sepStart : List Char) : List (List Char) → List Char
  | [] => []
  | [c] => c
  | c :: c' :: cs => stripEnd sepEnd c ++ stripChunksCont sepEnd sepStart (c' :: cs)

/-- The `POST .../comments` request posting one chunk (client.go:158-170),
body `{"text": <chunk>}`. -/
def commentRequest (baseURL projectKey repoName : String) (pullNum : Int)
    (c : List Char) : Request :=
  ⟨.POST, commentsURL baseURL projectKey repoName pullNum,
    some (.obj [("text", .str (String.mk c))])⟩

/-- The posting loop of `CreateComment` (client.go:141-145): post each chunk
in order, aborting on the first failure. -/
def postCommentsLoop (server : ServerOracle) (baseURL pk repoName : String)
    (pullNum : Int) : List (List Char) → List Request × Except VcsError Unit
  | [] => ([], .ok ())
  | c :: cs =>
      let req := commentRequest baseURL pk repoName pullNum c
      match makeRequest req (server req) with
      | .error (.unexpectedStatus m p s b) => ([req], .error (.http m p s b))
      | .ok _ =>
          let rest := postCommentsLoop server baseURL pk repoName pullNum cs
          (req :: rest.1, rest.2)

/-- `CreateComment` (client.go:137-147): split the comment at
`maxCommentLength` with the two continuation markers, then post each chunk. -/
def CreateComment (server : ServerOracle) (projectKey : Except VcsError String)
    (baseURL repoName : String) (pullNum : Int) (comment : List Char) :
    List Request × Except VcsError Unit :=
  match projectKey with
  | .error e => ([], .error e)
  | .ok pk =>
      postCommentsLoop server baseURL pk repoName pullNum
        (SplitComment comment maxCommentLength sepEnd sepStart 0 [])

/-! ## Helper lemmas -/

theorem makeRequest_of_status_ok (req : Request) (resp : HttpResponse)
    (h : resp.statusCode = 200 ∨ resp.statusCode = 201 ∨ resp.statusCode = 204) :
    makeRequest req resp = .ok resp.body := by
  unfold makeRequest
  rcases h with h | h | h <;> simp [h]

theorem makeRequest_of_status_bad (req : Request) (resp : HttpResponse)
    (h200 : resp.statusCode ≠ 200) (h201 : resp.statusCode ≠ 201)
    (h204 : resp.statusCode ≠ 204) :
    makeRequest req resp =
      .error (.unexpectedStatus req.method req.path resp.statusCode resp.body) := by
  unfold makeRequest
  simp [h200, h201, h204]

/-- A server oracle whose every response is `200` with a `null` body. -/
def nullServer : ServerOracle := fun _ => ⟨200, .null⟩

/-! ## Claim C5 — status mapping totality -/

/-- C5: the status mapping in `UpdateStatus` is total over the integer-backed
input type: pending, success and failed map to the three distinct host
strings, every other input maps to the same host string as failed, and the
build-status request `UpdateStatus` issues carries exactly the mapped
string. -/
theorem c5_status_mapping_total :
    bbState PendingCommitStatus = "INPROGRESS" ∧
    bbState SuccessCommitStatus = "SUCCESSFUL" ∧
    bbState FailedCommitStatus = "FAILED" ∧
    bbState PendingCommitStatus ≠ bbState SuccessCommitStatus ∧
    bbState PendingCommitStatus ≠ bbState FailedCommitStatus ∧
    bbState SuccessCommitStatus ≠ bbState FailedCommitStatus ∧
    (∀ status : Int, status ≠ PendingCommitStatus → status ≠ SuccessCommitStatus →
      status ≠ FailedCommitStatus → bbState status = bbState FailedCommitStatus) ∧
    (∀ (server : ServerOracle) (baseURL atlantisURL headCommit : String)
       (status : Int) (src description url : String),
      (UpdateStatus server baseURL atlantisURL headCommit status src description url).1 =
        [⟨.POST, buildStatusURL baseURL headCommit,
          some (.obj [("description", .str description), ("key", .str src),
            ("state", .str (bbState status)),
            ("url", .str (if url = "" then atlantisURL else url))])⟩]) := by
  refine ⟨rfl, rfl, rfl, by decide, by decide, by decide, ?_, ?_⟩
  · intro status h0 h1 h2
    have hrhs : bbState FailedCommitStatus = "FAILED" := rfl
    rw [hrhs]
    simp only [bbState, if_neg h0, if_neg h1, if_neg h2]
  · intro server baseURL atlantisURL headCommit status src description url
    simp only [UpdateStatus]
    split <;> rfl

/-- C5 witness: the unrecognized status `7` maps to the failed string. -/
theorem c5_witness : bbState 7 = bbState FailedCommitStatus :=
  c5_status_mapping_total.2.2.2.2.2.2.1 7 (by decide) (by decide) (by decide)

/-! ## Claim C7 — status-code classification in makeRequest -/

/-- C7: for every HTTP response, `makeRequest` returns the body as success
exactly when the status code is 200, 201 or 204; any other status code
yields an error carrying the request method, path, status code and response
body, each of which appears in the rendered error message. -/
theorem c7_makeRequest_classification :
    ∀ (req : Request) (resp : HttpResponse),
      (makeRequest req resp = .ok resp.body ↔
        resp.statusCode = 200 ∨ resp.statusCode = 201 ∨ resp.statusCode = 204) ∧
      (∀ b, makeRequest req resp = .ok b → b = resp.body) ∧
      (resp.statusCode ≠ 200 → resp.statusCode ≠ 201 → resp.statusCode ≠ 204 →
        makeRequest req resp =
          .error (.unexpectedStatus req.method req.path resp.statusCode resp.body) ∧
        (∀ e, makeRequest req resp = .error e →
          req.method.render.data <:+: e.message.data ∧
          req.path.data <:+: e.message.data ∧
          (toString resp.statusCode).data <:+: e.message.data ∧
          resp.body.render.data <:+: e.message.data)) := by
  intro req resp
  refine ⟨?_, ?_, ?_⟩
  · constructor
    · intro h
      by_contra hc
      push_neg at hc
      rw [makeRequest_of_status_bad req resp hc.1 hc.2.1 hc.2.2] at h
      exact Except.noConfusion h
    · exact makeRequest_of_status_ok req resp
  · intro b h
    unfold makeRequest at h
    split at h
    · exact Except.noConfusion h
    · exact (Except.ok.inj h).symm
  · intro h200 h201 h204
    have he := makeRequest_of_status_bad req resp h200 h201 h204
    refine ⟨he, ?_⟩
    intro e hee
    rw [he] at hee
    have heq := Except.error.inj hee
    subst heq
    simp only [RequestError.message, String.data_append]
    refine ⟨⟨"making request \"".data, ?_⟩, ⟨"making request \"".data ++ req.method.render.data ++ " ".data, ?_⟩,
      ⟨"making request \"".data ++ req.method.render.data ++ " ".data ++ req.path.data
        ++ "\" unexpected status code: ".data, ?_⟩, ?_⟩
    · exact ⟨" ".data ++ req.path.data ++ "\" unexpected status code: ".data
        ++ (toString resp.statusCode).data ++ ", body: ".data ++ resp.body.render.data,
        by simp [List.append_assoc]⟩
    · exact ⟨"\" unexpected status code: ".data ++ (toString resp.statusCode).data
        ++ ", body: ".data ++ resp.body.render.data, by simp [List.append_assoc]⟩
    · exact ⟨", body: ".data ++ resp.body.render.data, by simp [List.append_assoc]⟩
    · exact ⟨"making request \"".data ++ req.method.render.data ++ " ".data ++ req.path.data
        ++ "\" unexpected status code: ".data ++ (toString resp.statusCode).data ++ ", body: ".data,
        [], by simp [List.append_assoc]⟩

/-- C7 witness: a 500 response to `GET p` is classified as the structured
status error. -/
theorem c7_witness :
    makeRequest ⟨.GET, "p", none⟩ ⟨500, .str "oops"⟩ =
      .error (.unexpectedStatus .GET "p" 500 (.str "oops")) :=
  ((c7_makeRequest_classification ⟨.GET, "p", none⟩ ⟨500, .str "oops"⟩).2.2
    (by decide) (by decide) (by decide)).1

/-! ## Claim C4 — mergeability is canMerge AND NOT conflicted -/

theorem PullIsMergeable_ok (server : ServerOracle) (pk baseURL repoName : String)
    (pullNum : Int) (body : Json) (ms : MergeStatus) (cm cf : Bool)
    (hserver : server ⟨.GET, mergeabilityURL baseURL pk repoName pullNum, none⟩ = ⟨200, body⟩)
    (hdec : decodeMergeStatus body = .ok ms)
    (hval : validateMergeStatus ms = true)
    (hcm : ms.canMerge = some cm) (hcf : ms.conflicted = some cf) :
    PullIsMergeable server (.ok pk) baseURL repoName pullNum =
      ([⟨.GET, mergeabilityURL baseURL pk repoName pullNum, none⟩], .ok (cm && !cf)) := by
  simp only [PullIsMergeable, hserver]
  rw [makeRequest_of_status_ok _ _ (Or.inl rfl)]
  simp only [hdec, hval, if_true, hcm, hcf]

/-- C4: for every successfully decoded and validated mergeability report,
`PullIsMergeable` returns true iff the report's can-merge field is true and
its conflicted field is false. -/
theorem c4_pull_is_mergeable_iff :
    ∀ (server : ServerOracle) (pk baseURL repoName : String) (pullNum : Int)
      (body : Json) (ms : MergeStatus),
      server ⟨.GET, mergeabilityURL baseURL pk repoName pullNum, none⟩ = ⟨200, body⟩ →
      decodeMergeStatus body = .ok ms →
      validateMergeStatus ms = true →
      ∃ b : Bool,
        PullIsMergeable server (.ok pk) baseURL repoName pullNum =
          ([⟨.GET, mergeabilityURL baseURL pk repoName pullNum, none⟩], .ok b) ∧
        (b = true ↔ ms.canMerge = some true ∧ ms.conflicted = some false) := by
  intro server pk baseURL repoName pullNum body ms hserver hdec hval
  have hv := hval
  unfold validateMergeStatus at hv
  rw [Bool.and_eq_true] at hv
  obtain ⟨cm, hcm⟩ := Option.isSome_iff_exists.mp hv.1
  obtain ⟨cf, hcf⟩ := Option.isSome_iff_exists.mp hv.2
  refine ⟨cm && !cf, PullIsMergeable_ok server pk baseURL repoName pullNum body ms cm cf
    hserver hdec hval hcm hcf, ?_⟩
  cases cm <;> cases cf <;> simp [hcm, hcf]

/-- C4 witness: the spec's scenario `{canMerge:true, conflicted:false}` gives
mergeable = true. -/
theorem c4_witness :
    ∃ b : Bool,
      PullIsMergeable (fun _ => ⟨200, .obj [("canMerge", .bool true), ("conflicted", .bool false)]⟩)
          (.ok "at") "http://bb" "repo" 1 =
        ([⟨.GET, mergeabilityURL "http://bb" "at" "repo" 1, none⟩], .ok b) ∧
      (b = true ↔ (⟨some true, some false⟩ : MergeStatus).canMerge = some true ∧
        (⟨some true, some false⟩ : MergeStatus).conflicted = some false) :=
  c4_pull_is_mergeable_iff _ "at" "http://bb" "repo" 1
    (.obj [("canMerge", .bool true), ("conflicted", .bool false)])
    ⟨some true, some false⟩ rfl rfl rfl

/-! ## Claim C10 — approval is an existential over reviewers -/

theorem anyApproved_of_all_some :
    ∀ rs : List Reviewer, rs.all (·.approved.isSome) = true →
      anyApproved rs = .ok (rs.any fun r => decide (r.approved = some true)) := by
  intro rs h
  induction rs with
  | nil => rfl
  | cons r rs ih =>
      rw [List.all_cons, Bool.and_eq_true] at h
      obtain ⟨b, hb⟩ := Option.isSome_iff_exists.mp h.1
      cases b
      · simp [anyApproved, hb, ih h.2]
      · simp [anyApproved, hb]

theorem PullIsApproved_ok (server : ServerOracle) (pk baseURL repoName : String)
    (pullNum : Int) (body : Json) (pullResp : PullRequest)
    (hserver : server ⟨.GET, pullRequestURL baseURL pk repoName pullNum, none⟩ = ⟨200, body⟩)
    (hdec : decodePullRequest body = .ok pullResp)
    (hval : validatePullRequest pullResp = true) :
    PullIsApproved server (.ok pk) baseURL repoName pullNum =
      ([⟨.GET, pullRequestURL baseURL pk repoName pullNum, none⟩],
        .ok ⟨pullResp.reviewers.any fun r => decide (r.approved = some true)⟩) := by
  have hall : pullResp.reviewers.all (·.approved.isSome) = true := by
    have hv := hval
    unfold validatePullRequest at hv
    rw [Bool.and_eq_true] at hv
    exact hv.2
  simp only [PullIsApproved, hserver]
  rw [makeRequest_of_status_ok _ _ (Or.inl rfl)]
  simp only [hdec, hval, if_true, anyApproved_of_all_some pullResp.reviewers hall]

/-- C10: for every successfully decoded and validated pull request snapshot,
`PullIsApproved` reports approved iff some reviewer entry has its approved
flag set to true; with no approving reviewer (in particular an empty
reviewer list) it returns the zero approval status and no error. -/
theorem c10_pull_is_approved :
    ∀ (server : ServerOracle) (pk baseURL repoName : String) (pullNum : Int)
      (body : Json) (pullResp : PullRequest),
      server ⟨.GET, pullRequestURL baseURL pk repoName pullNum, none⟩ = ⟨200, body⟩ →
      decodePullRequest body = .ok pullResp →
      validatePullRequest pullResp = true →
      ∃ st : ApprovalStatus,
        PullIsApproved server (.ok pk) baseURL repoName pullNum =
          ([⟨.GET, pullRequestURL baseURL pk repoName pullNum, none⟩], .ok st) ∧
        (st.isApproved = true ↔ ∃ r ∈ pullResp.reviewers, r.approved = some true) ∧
        (pullResp.reviewers = [] → st.isApproved = false) := by
  intro server pk baseURL repoName pullNum body pullResp hserver hdec hval
  refine ⟨⟨pullResp.reviewers.any fun r => decide (r.approved = some true)⟩,
    PullIsApproved_ok server pk baseURL repoName pullNum body pullResp hserver hdec hval,
    ?_, ?_⟩
  · simp [List.any_eq_true]
  · intro hnil
    simp [hnil]

/-- C10 witness: one unapproving and one approving reviewer give
`IsApproved = true`. -/
theorem c10_witness :
    ∃ st : ApprovalStatus,
      PullIsApproved
          (fun _ => ⟨200, .obj [("version", .num 3),
            ("reviewers", .arr [.obj [("approved", .bool false)], .obj [("approved", .bool true)]])]⟩)
          (.ok "at") "http://bb" "repo" 1 =
        ([⟨.GET, pullRequestURL "http://bb" "at" "repo" 1, none⟩], .ok st) ∧
      (st.isApproved = true ↔
        ∃ r ∈ (⟨some 3, [⟨some false⟩, ⟨some true⟩]⟩ : PullRequest).reviewers,
          r.approved = some true) ∧
      ((⟨some 3, [⟨some false⟩, ⟨some true⟩]⟩ : PullRequest).reviewers = [] →
        st.isApproved = false) :=
  c10_pull_is_approved _ "at" "http://bb" "repo" 1
    (.obj [("version", .num 3),
      ("reviewers", .arr [.obj [("approved", .bool false)], .obj [("approved", .bool true)]])])
    ⟨some 3, [⟨some false⟩, ⟨some true⟩]⟩ rfl rfl rfl

/-! ## Claim C6 — missing required fields give a schema error -/

theorem MergePull_schema (server : ServerOracle) (pk baseURL repoName : String)
    (pullNum : Int) (headBranch : String) (del : Bool) (body : Json) (pullResp : PullRequest)
    (hserver : server ⟨.GET, pullRequestURL baseURL pk repoName pullNum, none⟩ = ⟨200, body⟩)
    (hdec : decodePullRequest body = .ok pullResp)
    (hval : validatePullRequest pullResp = false) :
    MergePull server (.ok pk) baseURL repoName pullNum headBranch del =
      ([⟨.GET, pullRequestURL baseURL pk repoName pullNum, none⟩], .error (.schema body)) := by
  simp only [MergePull, hserver]
  rw [makeRequest_of_status_ok _ _ (Or.inl rfl)]
  simp only [hdec, hval, Bool.false_eq_true, if_false]

theorem PullIsApproved_schema (server : ServerOracle) (pk baseURL repoName : String)
    (pullNum : Int) (body : Json) (pullResp : PullRequest)
    (hserver : server ⟨.GET, pullRequestURL baseURL pk repoName pullNum, none⟩ = ⟨200, body⟩)
    (hdec : decodePullRequest body = .ok pullResp)
    (hval : validatePullRequest pullResp = false) :
    PullIsApproved server (.ok pk) baseURL repoName pullNum =
      ([⟨.GET, pullRequestURL baseURL pk repoName pullNum, none⟩], .error (.schema body)) := by
  simp only [PullIsApproved, hserver]
  rw [makeRequest_of_status_ok _ _ (Or.inl rfl)]
  simp only [hdec, hval, Bool.false_eq_true, if_false]

theorem PullIsMergeable_schema (server : ServerOracle) (pk baseURL repoName : String)
    (pullNum : Int) (body : Json) (ms : MergeStatus)
    (hserver : server ⟨.GET, mergeabilityURL baseURL pk repoName pullNum, none⟩ = ⟨200, body⟩)
    (hdec : decodeMergeStatus body = .ok ms)
    (hval : validateMergeStatus ms = false) :
    PullIsMergeable server (.ok pk) baseURL repoName pullNum =
      ([⟨.GET, mergeabilityURL baseURL pk repoName pullNum, none⟩], .error (.schema body)) := by
  simp only [PullIsMergeable, hserver]
  rw [makeRequest_of_status_ok _ _ (Or.inl rfl)]
  simp only [hdec, hval, Bool.false_eq_true, if_false]

theorem getModifiedFilesLoop_schema_first (server : ServerOracle) (url : String)
    (fuel : Nat) (start : Int) (acc : List String) (body : Json) (changes : Changes)
    (hserver : server (pageRequest url start) = ⟨200, body⟩)
    (hdec : decodeChanges body = .ok changes)
    (hval : validateChanges changes = false) :
    getModifiedFilesLoop server url (fuel + 1) start acc = (1, .error (.schema body)) := by
  rw [getModifiedFilesLoop]
  simp only [hserver]
  rw [makeRequest_of_status_ok _ _ (Or.inl rfl)]
  simp only [hdec, hval, Bool.false_eq_true, if_false]

theorem GetModifiedFiles_schema (server : ServerOracle) (pk baseURL repoName : String)
    (pullNum : Int) (body : Json) (changes : Changes)
    (hserver : server (pageRequest (changesURL baseURL pk repoName pullNum) 0) = ⟨200, body⟩)
    (hdec : decodeChanges body = .ok changes)
    (hval : validateChanges changes = false) :
    GetModifiedFiles server (.ok pk) baseURL repoName pullNum =
      (1, .error (.schema body)) := by
  have h := getModifiedFilesLoop_schema_first server (changesURL baseURL pk repoName pullNum)
    999 0 [] body changes hserver hdec hval
  simp only [GetModifiedFiles]
  rw [show (1000 : Nat) = 999 + 1 from rfl, h]
  rfl

/-- C6: a response that decodes but lacks a required field makes the
operation return a schema-validation error rather than succeed, for each of
`MergePull`, `PullIsApproved`, `PullIsMergeable` (missing version or
mergeability fields) and `GetModifiedFiles` (missing is-last-page flag); and
that error is distinct from the decode-failure error. -/
theorem c6_schema_validation :
    (∀ a b : Json, VcsError.schema a ≠ VcsError.decode b) ∧
    (∀ (server : ServerOracle) (pk baseURL repoName : String) (pullNum : Int)
       (headBranch : String) (del : Bool) (body : Json) (pullResp : PullRequest),
      server ⟨.GET, pullRequestURL baseURL pk repoName pullNum, none⟩ = ⟨200, body⟩ →
      decodePullRequest body = .ok pullResp → pullResp.version = none →
      MergePull server (.ok pk) baseURL repoName pullNum headBranch del =
        ([⟨.GET, pullRequestURL baseURL pk repoName pullNum, none⟩],
          .error (.schema body))) ∧
    (∀ (server : ServerOracle) (pk baseURL repoName : String) (pullNum : Int)
       (body : Json) (pullResp : PullRequest),
      server ⟨.GET, pullRequestURL baseURL pk repoName pullNum, none⟩ = ⟨200, body⟩ →
      decodePullRequest body = .ok pullResp → pullResp.version = none →
      PullIsApproved server (.ok pk) baseURL repoName pullNum =
        ([⟨.GET, pullRequestURL baseURL pk repoName pullNum, none⟩],
          .error (.schema body))) ∧
    (∀ (server : ServerOracle) (pk baseURL repoName : String) (pullNum : Int)
       (body : Json) (ms : MergeStatus),
      server ⟨.GET, mergeabilityURL baseURL pk repoName pullNum, none⟩ = ⟨200, body⟩ →
      decodeMergeStatus body = .ok ms → ms.canMerge = none →
      PullIsMergeable server (.ok pk) baseURL repoName pullNum =
        ([⟨.GET, mergeabilityURL baseURL pk repoName pullNum, none⟩],
          .error (.schema body))) ∧
    (∀ (server : ServerOracle) (pk baseURL repoName : String) (pullNum : Int)
       (body : Json) (changes : Changes),
      server (pageRequest (changesURL baseURL pk repoName pullNum) 0) = ⟨200, body⟩ →
      decodeChanges body = .ok changes → changes.isLastPage = none →
      GetModifiedFiles server (.ok pk) baseURL repoName pullNum =
        (1, .error (.schema body))) := by
  refine ⟨fun a b h => VcsError.noConfusion h, ?_, ?_, ?_, ?_⟩
  · intro server pk baseURL repoName pullNum headBranch del body pullResp hserver hdec hver
    exact MergePull_schema server pk baseURL repoName pullNum headBranch del body pullResp
      hserver hdec (by simp [validatePullRequest, hver])
  · intro server pk baseURL repoName pullNum body pullResp hserver hdec hver
    exact PullIsApproved_schema server pk baseURL repoName pullNum body pullResp
      hserver hdec (by simp [validatePullRequest, hver])
  · intro server pk baseURL repoName pullNum body ms hserver hdec hcm
    exact PullIsMergeable_schema server pk baseURL repoName pullNum body ms
      hserver hdec (by simp [validateMergeStatus, hcm])
  · intro server pk baseURL repoName pullNum body changes hserver hdec hlast
    exact GetModifiedFiles_schema server pk baseURL repoName pullNum body changes
      hserver hdec (by simp [validateChanges, hlast])

/-- C6 witness: an empty JSON object (no version field) makes `MergePull`
fail with the schema error, not succeed. -/
theorem c6_witness :
    MergePull (fun _ => ⟨200, .obj []⟩) (.ok "at") "http://bb" "repo" 1 "feat" false =
      ([⟨.GET, pullRequestURL "http://bb" "at" "repo" 1, none⟩],
        .error (.schema (.obj []))) :=
  c6_schema_validation.2.1 _ "at" "http://bb" "repo" 1 "feat" false (.obj [])
    ⟨none, []⟩ rfl rfl rfl

/-! ## Claim C1 — merge sequencing order -/

/-- C1: whenever the pull-request read succeeds and its response decodes and
validates with version token `v`, `MergePull`'s request trace starts with
exactly that one read followed by exactly one merge write whose version
query parameter is `v`; anything after them is only the optional
branch-delete, and the whole trace contains exactly one GET and exactly one
POST. -/
theorem c1_merge_sequencing :
    ∀ (server : ServerOracle) (pk baseURL repoName : String) (pullNum : Int)
      (headBranch : String) (del : Bool) (body : Json) (pullResp : PullRequest) (v : Int),
      server ⟨.GET, pullRequestURL baseURL pk repoName pullNum, none⟩ = ⟨200, body⟩ →
      decodePullRequest body = .ok pullResp →
      validatePullRequest pullResp = true →
      pullResp.version = some v →
      ∃ rest : List Request,
        (MergePull server (.ok pk) baseURL repoName pullNum headBranch del).1 =
          ⟨.GET, pullRequestURL baseURL pk repoName pullNum, none⟩ ::
            ⟨.POST, mergeURL baseURL pk repoName pullNum v, none⟩ :: rest ∧
        (∀ r ∈ rest, r.method = .DELETE) ∧
        ((MergePull server (.ok pk) baseURL repoName pullNum headBranch del).1.countP
          fun r => r.method == .GET) = 1 ∧
        ((MergePull server (.ok pk) baseURL repoName pullNum headBranch del).1.countP
          fun r => r.method == .POST) = 1 := by
  intro server pk baseURL repoName pullNum headBranch del body pullResp v hserver hdec hval hver
  have hget : makeRequest ⟨.GET, pullRequestURL baseURL pk repoName pullNum, none⟩
      (server ⟨.GET, pullRequestURL baseURL pk repoName pullNum, none⟩) = .ok body := by
    rw [hserver]; exact makeRequest_of_status_ok _ _ (Or.inl rfl)
  simp only [MergePull, hget, hdec, hval, if_true, hver]
  cases hmerge : makeRequest ⟨.POST, mergeURL baseURL pk repoName pullNum v, none⟩
      (server ⟨.POST, mergeURL baseURL pk repoName pullNum v, none⟩) with
  | error e =>
      cases e with
      | unexpectedStatus m p s b =>
          refine ⟨[], by simp [hmerge], by simp, ?_, ?_⟩ <;>
            simp [hmerge, List.countP_cons]
  | ok j =>
      by_cases hdel : del
      · subst hdel
        cases hdelete : makeRequest ⟨.DELETE, branchesURL baseURL pk repoName,
            some (.obj [("name", .str ("refs/heads/" ++ headBranch)), ("dryRun", .bool false)])⟩
            (server ⟨.DELETE, branchesURL baseURL pk repoName,
              some (.obj [("name", .str ("refs/heads/" ++ headBranch)), ("dryRun", .bool false)])⟩) with
        | error e =>
            cases e with
            | unexpectedStatus m p s b =>
                refine ⟨[⟨.DELETE, branchesURL baseURL pk repoName,
                  some (.obj [("name", .str ("refs/heads/" ++ headBranch)),
                    ("dryRun", .bool false)])⟩], by simp [hmerge, hdelete], by simp, ?_, ?_⟩ <;>
                  simp [hmerge, hdelete, List.countP_cons]
        | ok j' =>
            refine ⟨[⟨.DELETE, branchesURL baseURL pk repoName,
              some (.obj [("name", .str ("refs/heads/" ++ headBranch)),
                ("dryRun", .bool false)])⟩], by simp [hmerge, hdelete], by simp, ?_, ?_⟩ <;>
              simp [hmerge, hdelete, List.countP_cons]
      · refine ⟨[], by simp [hmerge, hdel], by simp, ?_, ?_⟩ <;>
          simp [hmerge, hdel, List.countP_cons]

/-- C1 witness: with a pull request at version 5, the trace is the read
followed by the merge write carrying `version=5`. -/
theorem c1_witness :
    ∃ rest : List Request,
      (MergePull (fun _ => ⟨200, .obj [("version", .num 5)]⟩) (.ok "at") "http://bb" "repo" 1
          "feat" false).1 =
        ⟨.GET, pullRequestURL "http://bb" "at" "repo" 1, none⟩ ::
          ⟨.POST, mergeURL "http://bb" "at" "repo" 1 5, none⟩ :: rest ∧
      (∀ r ∈ rest, r.method = .DELETE) ∧
      ((MergePull (fun _ => ⟨200, .obj [("version", .num 5)]⟩) (.ok "at") "http://bb" "repo" 1
          "feat" false).1.countP fun r => r.method == .GET) = 1 ∧
      ((MergePull (fun _ => ⟨200, .obj [("version", .num 5)]⟩) (.ok "at") "http://bb" "repo" 1
          "feat" false).1.countP fun r => r.method == .POST) = 1 :=
  c1_merge_sequencing _ "at" "http://bb" "repo" 1 "feat" false (.obj [("version", .num 5)])
    ⟨some 5, []⟩ 5 rfl rfl rfl rfl

/-! ## Claims C2 and C3 — pagination -/

theorem mem_uniqueFirstAux :
    ∀ (l seen : List String) (x : String),
      x ∈ uniqueFirstAux seen l ↔ x ∈ l ∧ x ∉ seen := by
  intro l
  induction l with
  | nil => intro seen x; simp [uniqueFirstAux]
  | cons f fs ih =>
      intro seen x
      by_cases hf : f ∈ seen
      · rw [uniqueFirstAux, if_pos hf, ih]
        constructor
        · exact fun h => ⟨List.mem_cons_of_mem f h.1, h.2⟩
        · rintro ⟨h1, h2⟩
          rcases List.mem_cons.mp h1 with rfl | h1
          · exact absurd hf h2
          · exact ⟨h1, h2⟩
      · rw [uniqueFirstAux, if_neg hf]
        by_cases hxf : x = f
        · subst hxf
          simp [hf]
        · simp only [List.mem_cons, ih, hxf, false_or]

theorem nodup_uniqueFirstAux :
    ∀ (l seen : List String), (uniqueFirstAux seen l).Nodup := by
  intro l
  induction l with
  | nil => intro seen; simp [uniqueFirstAux]
  | cons f fs ih =>
      intro seen
      by_cases hf : f ∈ seen
      · rw [uniqueFirstAux, if_pos hf]; exact ih seen
      · rw [uniqueFirstAux, if_neg hf]
        refine List.nodup_cons.mpr ⟨fun hmem => ?_, ih (f :: seen)⟩
        exact ((mem_uniqueFirstAux fs (f :: seen) f).mp hmem).2 (List.mem_cons_self f seen)

theorem sublist_uniqueFirstAux :
    ∀ (l seen : List String), (uniqueFirstAux seen l).Sublist l := by
  intro l
  induction l with
  | nil => intro seen; simp [uniqueFirstAux]
  | cons f fs ih =>
      intro seen
      by_cases hf : f ∈ seen
      · rw [uniqueFirstAux, if_pos hf]
        exact (ih seen).trans (List.sublist_cons_self f fs)
      · rw [uniqueFirstAux, if_neg hf]
        exact List.Sublist.cons₂ f (ih (f :: seen))

theorem mem_uniqueFirst (l : List String) (x : String) :
    x ∈ uniqueFirst l ↔ x ∈ l := by
  unfold uniqueFirst
  rw [mem_uniqueFirstAux]
  simp

/-- The oracle serves, at offset `start`, a page that fetches with status
200 and decodes and validates to `c`. -/
def ServesPage (server : ServerOracle) (url : String) (start : Int) (c : Changes) : Prop :=
  (server (pageRequest url start)).statusCode = 200 ∧
  decodeChanges (server (pageRequest url start)).body = .ok c ∧
  validateChanges c = true

/-- The oracle serves the page chain `pages` beginning at offset `start`:
every page but the last reports "more pages" and names the next offset; the
last reports "is last page". -/
def ServesChain (server : ServerOracle) (url : String) : Int → List Changes → Prop
  | _, [] => True
  | start, [c] => ServesPage server url start c ∧ c.isLastPage = some true
  | start, c :: c' :: cs =>
      ServesPage server url start c ∧ c.isLastPage = some false ∧
      ∃ n, c.nextPageStart = some n ∧ ServesChain server url n (c' :: cs)

theorem getModifiedFilesLoop_chain (server : ServerOracle) (url : String) :
    ∀ (pages : List Changes) (start : Int) (acc : List String) (fuel : Nat),
      pages ≠ [] → pages.length ≤ fuel →
      ServesChain server url start pages →
      getModifiedFilesLoop server url fuel start acc =
        (pages.length, .ok (acc ++ pages.flatMap pageEntries)) := by
  intro pages
  induction pages with
  | nil => intro start acc fuel hne _ _; exact absurd rfl hne
  | cons c cs ih =>
      intro start acc fuel _ hlen hchain
      obtain ⟨fuel, rfl⟩ : ∃ f, fuel = f + 1 := by
        cases fuel
        · simp at hlen
        · exact ⟨_, rfl⟩
      cases cs with
      | nil =>
          obtain ⟨⟨hstatus, hdec, hval⟩, hlast⟩ := hchain
          rw [getModifiedFilesLoop]
          have hmk := makeRequest_of_status_ok (pageRequest url start)
            (server (pageRequest url start)) (Or.inl hstatus)
          simp only [hmk, hdec, hval, if_true, hlast]
          simp
      | cons c' cs' =>
          obtain ⟨⟨hstatus, hdec, hval⟩, hlastF, n, hnext, hchain'⟩ := hchain
          rw [getModifiedFilesLoop]
          have hmk := makeRequest_of_status_ok (pageRequest url start)
            (server (pageRequest url start)) (Or.inl hstatus)
          simp only [hmk, hdec, hval, if_true, hlastF, hnext]
          rw [ih n (acc ++ pageEntries c) fuel (by simp)
            (by simp only [List.length_cons] at hlen ⊢; omega) hchain']
          simp [List.append_assoc]

/-- C2: if the oracle serves a chain of N pages (N ≥ 1, within the loop
bound entailed by "Nth fetched") whose Nth page is the first to report "is
last page", `GetModifiedFiles` performs exactly N page fetches and returns
the entries of pages 1..N — a renamed entry contributing its current path
then its prior path — deduplicated with first-seen order preserved. -/
theorem c2_pagination_termination :
    ∀ (server : ServerOracle) (pk baseURL repoName : String) (pullNum : Int)
      (pages : List Changes),
      pages ≠ [] → pages.length ≤ 1000 →
      ServesChain server (changesURL baseURL pk repoName pullNum) 0 pages →
      GetModifiedFiles server (.ok pk) baseURL repoName pullNum =
        (pages.length, .ok (uniqueFirst (pages.flatMap pageEntries))) ∧
      (uniqueFirst (pages.flatMap pageEntries)).Nodup ∧
      (∀ x, x ∈ uniqueFirst (pages.flatMap pageEntries) ↔ x ∈ pages.flatMap pageEntries) ∧
      (uniqueFirst (pages.flatMap pageEntries)).Sublist (pages.flatMap pageEntries) ∧
      (∀ (v : ChangeValue) (p : String) (sp : ChangePath) (q : String),
        v.path.toString = some p → v.srcPath = some sp → sp.toString = some q →
        entryPaths v = [p, q]) := by
  intro server pk baseURL repoName pullNum pages hne hlen hchain
  refine ⟨?_, nodup_uniqueFirstAux _ [],
    fun x => mem_uniqueFirst (pages.flatMap pageEntries) x,
    sublist_uniqueFirstAux _ [], ?_⟩
  · simp only [GetModifiedFiles]
    rw [getModifiedFilesLoop_chain server _ pages 0 [] 1000 hne hlen hchain]
    simp [Except.map]
  · intro v p sp q h1 h2 h3
    simp [entryPaths, h1, h2, h3]

/-- The spec's two-page scenario server: the page at offset 0 lists `a.tf`
with more pages at offset 1; the page at offset 1 lists the rename `b.tf`
(from `old.tf`) and is last. -/
def twoPageServer : ServerOracle := fun req =>
  if req.path = changesURL "http://bb" "at" "repo" 1 ++ "?start=0" then
    ⟨200, .obj [("values", .arr [.obj [("path", .obj [("toString", .str "a.tf")])]]),
      ("isLastPage", .bool false), ("nextPageStart", .num 1)]⟩
  else
    ⟨200, .obj [("values", .arr [.obj [("path", .obj [("toString", .str "b.tf")]),
        ("srcPath", .obj [("toString", .str "old.tf")])]]),
      ("isLastPage", .bool true)]⟩

/-- Page 1 of the scenario, decoded. -/
def page1 : Changes := ⟨[⟨⟨some "a.tf"⟩, none⟩], some false, some 1⟩

/-- Page 2 of the scenario, decoded. -/
def page2 : Changes := ⟨[⟨⟨some "b.tf"⟩, some ⟨some "old.tf"⟩⟩], some true, none⟩

/-- C2 witness: the spec's scenario — two fetches, result
`["a.tf", "b.tf", "old.tf"]`, no duplicates. -/
theorem c2_witness :
    GetModifiedFiles twoPageServer (.ok "at") "http://bb" "repo" 1 =
      (2, .ok ["a.tf", "b.tf", "old.tf"]) := by
  have h := (c2_pagination_termination twoPageServer "at" "http://bb" "repo" 1 [page1, page2]
    (by simp) (by simp)
    ⟨⟨rfl, rfl, rfl⟩, rfl, 1, rfl, ⟨rfl, rfl, rfl⟩, rfl⟩).1
  rw [h]
  rfl

/-- Every page the oracle ever serves fetches with status 200, decodes,
validates, reports "is last page" = false, and names a next offset. -/
def NeverLast (server : ServerOracle) (url : String) : Prop :=
  ∀ start : Int, ∃ (c : Changes) (n : Int),
    (server (pageRequest url start)).statusCode = 200 ∧
    decodeChanges (server (pageRequest url start)).body = .ok c ∧
    validateChanges c = true ∧
    c.isLastPage = some false ∧
    c.nextPageStart = some n

/-- The pages the pagination loop fetches in `k` steps along the chain. -/
def fetchedPages (server : ServerOracle) (url : String) : Int → Nat → List Changes
  | _, 0 => []
  | start, k + 1 =>
      match decodeChanges (server (pageRequest url start)).body with
      | .ok c => c :: fetchedPages server url (c.nextPageStart.getD 0) k
      | .error _ => []

theorem getModifiedFilesLoop_neverLast (server : ServerOracle) (url : String)
    (h : NeverLast server url) :
    ∀ (fuel : Nat) (start : Int) (acc : List String),
      getModifiedFilesLoop server url fuel start acc =
        (fuel, .ok (acc ++ (fetchedPages server url start fuel).flatMap pageEntries)) := by
  intro fuel
  induction fuel with
  | zero => intro start acc; simp [getModifiedFilesLoop, fetchedPages]
  | succ k ih =>
      intro start acc
      obtain ⟨c, n, hstatus, hdec, hval, hlast, hnext⟩ := h start
      rw [getModifiedFilesLoop]
      have hmk := makeRequest_of_status_ok (pageRequest url start)
        (server (pageRequest url start)) (Or.inl hstatus)
      simp only [hmk, hdec, hval, if_true, hlast, hnext]
      rw [ih n (acc ++ pageEntries c), fetchedPages]
      simp only [hdec, hnext]
      simp [List.append_assoc]

/-- C3: if no fetched page ever reports "is last page" (and every fetch
succeeds, decodes and validates), `GetModifiedFiles` stops after exactly
1000 page fetches and returns the accumulated entries, deduplicated, with
no error. -/
theorem c3_pagination_safety_bound :
    ∀ (server : ServerOracle) (pk baseURL repoName : String) (pullNum : Int),
      NeverLast server (changesURL baseURL pk repoName pullNum) →
      GetModifiedFiles server (.ok pk) baseURL repoName pullNum =
        (1000, .ok (uniqueFirst
          ((fetchedPages server (changesURL baseURL pk repoName pullNum) 0 1000).flatMap
            pageEntries))) ∧
      (uniqueFirst
        ((fetchedPages server (changesURL baseURL pk repoName pullNum) 0 1000).flatMap
          pageEntries)).Nodup ∧
      (∀ x, x ∈ uniqueFirst
          ((fetchedPages server (changesURL baseURL pk repoName pullNum) 0 1000).flatMap
            pageEntries) ↔
        x ∈ (fetchedPages server (changesURL baseURL pk repoName pullNum) 0 1000).flatMap
          pageEntries) := by
  intro server pk baseURL repoName pullNum h
  refine ⟨?_, nodup_uniqueFirstAux _ [], fun x => mem_uniqueFirst _ x⟩
  simp only [GetModifiedFiles]
  rw [getModifiedFilesLoop_neverLast server _ h 1000 0 []]
  simp [Except.map]

/-- A server oracle that always answers with a non-last empty page pointing
back at offset 0. -/
def neverLastServer : ServerOracle := fun _ =>
  ⟨200, .obj [("values", .arr []), ("isLastPage", .bool false), ("nextPageStart", .num 0)]⟩

set_option maxRecDepth 100000 in
/-- C3 witness: against the never-last server the loop stops at exactly 1000
fetches and returns successfully (here with no files). -/
theorem c3_witness :
    GetModifiedFiles neverLastServer (.ok "at") "http://bb" "repo" 1 = (1000, .ok []) := by
  have h := (c3_pagination_safety_bound neverLastServer "at" "http://bb" "repo" 1
    (fun _ => ⟨⟨[], some false, some 0⟩, 0, rfl, rfl, rfl, rfl, rfl⟩)).1
  rw [h]
  rfl

/-! ## Claim C8 — stub operations -/

/-- C8 counterexample: the claim says `DiscardReviews` returns an
unsupported-operation error; in the code it is a `TODO implement` stub that
returns `nil` (no error) — and makes no network call. -/
theorem c8_counterexample_discard_reviews :
    DiscardReviews nullServer = ([], none) := rfl

/-- C8 (amended): `GetFileContent`, `GetCloneURL` and `GetPullLabels` return
an unsupported-operation error immediately with no network call;
`DiscardReviews`, an unimplemented stub, returns success (`nil`) immediately
with no network call. -/
theorem c8_stub_operations :
    ∀ server : ServerOracle,
      GetFileContent server = ([], (false, "", some (.unsupported "not implemented"))) ∧
      GetCloneURL server = ([], ("", some (.unsupported "not yet implemented"))) ∧
      GetPullLabels server = ([], ([], some (.unsupported "not yet implemented"))) ∧
      DiscardReviews server = ([], none) :=
  fun _ => ⟨rfl, rfl, rfl, rfl⟩

/-! ## Claim C9 — comment splitting -/

theorem stripEnd_append (sE c : List Char) : stripEnd sE (c ++ sE) = c := by
  unfold stripEnd
  rw [List.length_append, Nat.add_sub_cancel, List.take_left]

theorem splitCommentCont_cons (maxSize : Nat) (sE sS rest : List Char) :
    ∃ c cs, splitCommentCont maxSize sE sS rest = c :: cs := by
  rw [splitCommentCont]
  split
  · exact ⟨_, _, rfl⟩
  · exact ⟨_, _, rfl⟩

theorem stripChunksCont_splitCommentCont (maxSize : Nat) (sE sS : List Char)
    (hsep : sE.length + sS.length < maxSize) :
    ∀ (k : Nat) (rest : List Char), rest.length ≤ k → rest ≠ [] →
      stripChunksCont sE sS (splitCommentCont maxSize sE sS rest) = rest := by
  intro k
  induction k with
  | zero =>
      intro rest hlen hne
      cases rest
      · exact absurd rfl hne
      · simp at hlen
  | succ k ih =>
      intro rest hlen hne
      rw [splitCommentCont]
      split
      · simp [stripChunksCont, List.drop_left]
      · rename_i h
        push_neg at h
        have hn : max 1 (maxSize - sS.length - sE.length) = maxSize - sS.length - sE.length := by
          omega
        simp only [hn]
        have hrest : maxSize - sS.length - sE.length < rest.length := by omega
        obtain ⟨c2, cs2, heq⟩ :=
          splitCommentCont_cons maxSize sE sS (rest.drop (maxSize - sS.length - sE.length))
        rw [heq]
        have hdropne : rest.drop (maxSize - sS.length - sE.length) ≠ [] := by
          apply List.length_pos.mp
          rw [List.length_drop]
          omega
        have hdroplen : (rest.drop (maxSize - sS.length - sE.length)).length ≤ k := by
          rw [List.length_drop]
          omega
        calc stripChunksCont sE sS
              ((sS ++ rest.take (maxSize - sS.length - sE.length) ++ sE) :: c2 :: cs2)
            = stripEnd sE
                ((sS ++ rest.take (maxSize - sS.length - sE.length) ++ sE).drop sS.length)
              ++ stripChunksCont sE sS (c2 :: cs2) := rfl
          _ = rest.take (maxSize - sS.length - sE.length)
              ++ stripChunksCont sE sS (c2 :: cs2) := by
              rw [List.append_assoc, List.drop_left, stripEnd_append]
          _ = rest.take (maxSize - sS.length - sE.length)
              ++ rest.drop (maxSize - sS.length - sE.length) := by
              rw [← heq, ih _ hdroplen hdropne]
          _ = rest := List.take_append_drop _ rest

theorem splitCommentCont_length_le (maxSize : Nat) (sE sS : List Char)
    (hsep : sE.length + sS.length < maxSize) :
    ∀ (k : Nat) (rest : List Char), rest.length ≤ k →
      ∀ c ∈ splitCommentCont maxSize sE sS rest, c.length ≤ maxSize := by
  intro k
  induction k with
  | zero =>
      intro rest hlen c hc
      interval_cases hrest : rest.length
      · have : rest = [] := List.length_eq_zero.mp hrest
        subst this
        rw [splitCommentCont] at hc
        simp at hc
        subst hc
        simp
        omega
  | succ k ih =>
      intro rest hlen c hc
      rw [splitCommentCont] at hc
      split at hc
      · rename_i h
        simp at hc
        subst hc
        rcases h with rfl | h
        · simp
          omega
        · simp [List.length_append]
          omega
      · rename_i h
        push_neg at h
        have hn : max 1 (maxSize - sS.length - sE.length) = maxSize - sS.length - sE.length := by
          omega
        rw [hn] at hc
        rcases List.mem_cons.mp hc with rfl | hc
        · simp [List.length_append, List.length_take]
          omega
        · refine ih (rest.drop (maxSize - sS.length - sE.length)) ?_ c hc
          rw [List.length_drop]
          omega

theorem splitComment_noop (maxSize : Nat) (sE sS : List Char) (comment : List Char)
    (h : comment.length ≤ maxSize) :
    SplitComment comment maxSize sE sS 0 [] = [comment] := by
  unfold SplitComment
  rw [if_pos h]

theorem stripChunks_splitComment (maxSize : Nat) (sE sS : List Char)
    (hsep : sE.length + sS.length < maxSize) (comment : List Char) :
    stripChunks sE sS (SplitComment comment maxSize sE sS 0 []) = comment := by
  unfold SplitComment
  split
  · rfl
  · rename_i h
    push_neg at h
    have hne : comment.drop (maxSize - sE.length) ≠ [] := by
      apply List.length_pos.mp
      rw [List.length_drop]
      omega
    obtain ⟨c2, cs2, heq⟩ :=
      splitCommentCont_cons maxSize sE sS (comment.drop (maxSize - sE.length))
    rw [heq]
    have hstep : stripChunks sE sS
        ((comment.take (maxSize - sE.length) ++ sE) :: c2 :: cs2) =
        stripEnd sE (comment.take (maxSize - sE.length) ++ sE)
          ++ stripChunksCont sE sS (c2 :: cs2) := rfl
    rw [hstep, stripEnd_append, ← heq,
      stripChunksCont_splitCommentCont maxSize sE sS hsep
        (comment.drop (maxSize - sE.length)).length _ le_rfl hne]
    exact List.take_append_drop _ comment

theorem splitComment_length_le (maxSize : Nat) (sE sS : List Char)
    (hsep : sE.length + sS.length < maxSize) (comment : List Char) :
    ∀ c ∈ SplitComment comment maxSize sE sS 0 [], c.length ≤ maxSize := by
  unfold SplitComment
  split
  · rename_i h
    intro c hc
    simp at hc
    subst hc
    exact h
  · rename_i h
    push_neg at h
    intro c hc
    rcases List.mem_cons.mp hc with rfl | hc
    · simp [List.length_append, List.length_take]
      omega
    · exact splitCommentCont_length_le maxSize sE sS hsep
        (comment.drop (maxSize - sE.length)).length _ le_rfl c hc

theorem postCommentsLoop_singleton (server : ServerOracle) (baseURL pk repoName : String)
    (pullNum : Int) (c : List Char) :
    (postCommentsLoop server baseURL pk repoName pullNum [c]).1 =
      [commentRequest baseURL pk repoName pullNum c] := by
  simp only [postCommentsLoop]
  split <;> rfl

/-- C9: a comment within the 32768-character platform ceiling yields exactly
one chunk identical to the input, so `CreateComment` issues exactly one
posting request carrying the original text; for any comment, concatenating
the produced chunks with the inserted continuation markers stripped
reproduces the original text exactly, and every chunk (markers included)
fits the ceiling. -/
theorem c9_comment_split :
    (∀ comment : List Char, comment.length ≤ maxCommentLength →
      SplitComment comment maxCommentLength sepEnd sepStart 0 [] = [comment]) ∧
    (∀ (server : ServerOracle) (pk baseURL repoName : String) (pullNum : Int)
       (comment : List Char), comment.length ≤ maxCommentLength →
      (CreateComment server (.ok pk) baseURL repoName pullNum comment).1 =
        [commentRequest baseURL pk repoName pullNum comment]) ∧
    (∀ comment : List Char,
      stripChunks sepEnd sepStart
        (SplitComment comment maxCommentLength sepEnd sepStart 0 []) = comment) ∧
    (∀ comment : List Char,
      ∀ c ∈ SplitComment comment maxCommentLength sepEnd sepStart 0 [],
        c.length ≤ maxCommentLength) := by
  have hsep : sepEnd.length + sepStart.length < maxCommentLength := by decide
  refine ⟨fun comment h => splitComment_noop _ _ _ comment h, ?_, ?_, ?_⟩
  · intro server pk baseURL repoName pullNum comment h
    simp only [CreateComment, splitComment_noop _ _ _ comment h]
    exact postCommentsLoop_singleton server baseURL pk repoName pullNum comment
  · exact fun comment => stripChunks_splitComment _ _ _ hsep comment
  · exact fun comment => splitComment_length_le _ _ _ hsep comment

/-- C9 witness: a two-character comment is left as a single identical chunk,
and stripping reproduces it. -/
theorem c9_witness :
    SplitComment "hi".toList maxCommentLength sepEnd sepStart 0 [] = ["hi".toList] ∧
    stripChunks sepEnd sepStart
      (SplitComment "hi".toList maxCommentLength sepEnd sepStart 0 []) = "hi".toList :=
  ⟨c9_comment_split.1 "hi".toList (by decide), c9_comment_split.2.2.1 "hi".toList⟩

end BitbucketServer
